import Mathlib

/-!
# FlowPilot scheduling engine — verification development

Shallow embedding of the scheduling core of the FlowPilot repository:

* `src/server/scheduler_engine.py` — the gap-scan free-slot finder
  (`_find_free_slot`) and the multi-task pass (`plan_all_pending`).
* `src/backend/main.py` — the bucket classifier (`simple_plan`), the
  full-sync auto-booking step (`run_full_sync`), the Gmail parser's task
  construction (`parse_gmail_tasks`), and the step-jump slot finder
  (`GoogleServices.find_free_slot`).

Time is modelled as minutes since a fixed epoch (`Int`), all in the one
canonical time zone the source uses for comparisons.  Python `datetime`
values are minute counts; Python `date` values are day numbers.  A Python
`datetime`/`date` mixed comparison raises `TypeError`; fallible code is
modelled with `Except Unit`.
-/

namespace FlowPilot

/-! ## Interval model

A busy interval is a half-open pair `(start, end)` in minutes. -/

abbrev Ival := Int × Int

/-- `[s, e)` is disjoint from every busy interval in `busy`
(half-open overlap test, as in the Python sources). -/
def DisjointAll (busy : List Ival) (s e : Int) : Prop :=
  ∀ p ∈ busy, ¬ (s < p.2 ∧ p.1 < e)

instance (busy : List Ival) (s e : Int) : Decidable (DisjointAll busy s e) :=
  List.decidableBAll _ busy

/-! ## Gap-scan free-slot finder (`_find_free_slot`, scheduler_engine.py)

```python
cur = day_start
for (bs, be) in busy:
    gap = (bs - cur).total_seconds() / 60.0
    if gap >= duration_min:
        return (cur, cur + timedelta(minutes=duration_min))
    cur = max(cur, be)
    if cur > day_end:
        break
if (day_end - cur).total_seconds() / 60.0 >= duration_min:
    return (cur, cur + timedelta(minutes=duration_min))
return None
```

`scanGaps` is the loop; the `break` exits to the tail-gap check with the
updated `cur`. -/
def scanGaps (dayEnd dur : Int) : Int → List Ival → Option Int
  | cur, [] => if dayEnd - cur ≥ dur then some cur else none
  | cur, (bs, be) :: rest =>
    if bs - cur ≥ dur then some cur
    else
      let cur2 := max cur be
      if cur2 > dayEnd then
        -- `break`, then the tail-gap check runs with the updated cursor
        if dayEnd - cur2 ≥ dur then some cur2 else none
      else scanGaps dayEnd dur cur2 rest

/-- `_find_free_slot`, with the day bounds and the (already sorted) busy
list passed explicitly.  A non-positive duration is replaced by 30. -/
def findFreeSlot (ws we : Int) (busy : List Ival) (durationMin : Int) :
    Option (Int × Int) :=
  let dur := if durationMin ≤ 0 then 30 else durationMin
  (scanGaps we dur ws busy).map (fun s => (s, s + dur))

/-- Sortedness plus mutual non-overlap of a busy list, as the spec's §4.2
precondition states it: any earlier interval ends no later than any later
interval starts. -/
def BusyChain (busy : List Ival) : Prop :=
  List.Pairwise (fun p q : Ival => p.2 ≤ q.1) busy

/-- All busy intervals are non-degenerate and lie inside the window. -/
def BusyInWindow (ws we : Int) (busy : List Ival) : Prop :=
  ∀ p ∈ busy, ws ≤ p.1 ∧ p.1 < p.2 ∧ p.2 ≤ we

instance (ws we : Int) (busy : List Ival) : Decidable (BusyInWindow ws we busy) :=
  List.decidableBAll _ busy

theorem scanGaps_sound (we dur : Int) :
    ∀ (busy : List Ival) (cur : Int),
      BusyChain busy →
      (∀ p ∈ busy, cur ≤ p.1 ∧ p.1 < p.2 ∧ p.2 ≤ we) →
      0 < dur →
      (∃ s0, cur ≤ s0 ∧ s0 + dur ≤ we ∧ DisjointAll busy s0 (s0 + dur)) →
      ∃ s, scanGaps we dur cur busy = some s ∧ cur ≤ s ∧ s + dur ≤ we ∧
        DisjointAll busy s (s + dur) := by
  intro busy
  induction busy with
  | nil =>
    intro cur _ _ _ hex
    obtain ⟨s0, hcs, hse, _⟩ := hex
    refine ⟨cur, ?_, le_refl _, by omega, ?_⟩
    · simp only [scanGaps]
      rw [if_pos (by omega)]
    · intro p hp; simp at hp
  | cons hd tl ih =>
    intro cur hchain hin hdur hex
    obtain ⟨bs, be⟩ := hd
    obtain ⟨hhd_rel, htl_chain⟩ := List.pairwise_cons.mp hchain
    obtain ⟨hws_bs, hbs_be, hbe_we⟩ := hin (bs, be) (List.mem_cons_self _ _)
    by_cases hgap : bs - cur ≥ dur
    · refine ⟨cur, ?_, le_refl _, by omega, ?_⟩
      · simp only [scanGaps]
        rw [if_pos hgap]
      · intro p hp
        rcases List.mem_cons.mp hp with hp | hp
        · subst hp; simp only; omega
        · have := hhd_rel p hp
          have := (hin p (List.mem_cons_of_mem _ hp)).2.1
          simp only at *
          omega
    · obtain ⟨s0, hcs, hse, hdisj⟩ := hex
      have hhead := hdisj (bs, be) (List.mem_cons_self _ _)
      simp only at hhead
      have hs0_be : be ≤ s0 := by omega
      have hcur2 : max cur be ≤ s0 := max_le (by omega) hs0_be
      by_cases hbr : max cur be > we
      · exfalso; omega
      · have htl_in : ∀ p ∈ tl, max cur be ≤ p.1 ∧ p.1 < p.2 ∧ p.2 ≤ we := by
          intro p hp
          have h1 := hhd_rel p hp
          have h2 := hin p (List.mem_cons_of_mem _ hp)
          exact ⟨by omega, h2.2.1, h2.2.2⟩
        have htl_disj : DisjointAll tl s0 (s0 + dur) := fun p hp =>
          hdisj p (List.mem_cons_of_mem _ hp)
        obtain ⟨s, heq, hs1, hs2, hs3⟩ :=
          ih (max cur be) htl_chain htl_in hdur ⟨s0, hcur2, hse, htl_disj⟩
        refine ⟨s, ?_, by omega, hs2, ?_⟩
        · simp only [scanGaps]
          rw [if_neg hgap, if_neg hbr]
          exact heq
        · intro p hp
          rcases List.mem_cons.mp hp with hp | hp
          · subst hp
            simp only
            have : be ≤ max cur be := le_max_right _ _
            omega
          · exact hs3 p hp

theorem scanGaps_earliest (we dur : Int) (hdur : 0 < dur) :
    ∀ (busy : List Ival) (cur s : Int),
      scanGaps we dur cur busy = some s →
      ∀ s0, cur ≤ s0 → s0 + dur ≤ we → DisjointAll busy s0 (s0 + dur) →
        s ≤ s0 := by
  intro busy
  induction busy with
  | nil =>
    intro cur s hret s0 hcs _ _
    simp only [scanGaps] at hret
    split at hret
    · injection hret with h; omega
    · exact absurd hret (by simp)
  | cons hd tl ih =>
    intro cur s hret s0 hcs hse hdisj
    obtain ⟨bs, be⟩ := hd
    have hhead := hdisj (bs, be) (List.mem_cons_self _ _)
    simp only at hhead
    simp only [scanGaps] at hret
    by_cases hgap : bs - cur ≥ dur
    · rw [if_pos hgap] at hret
      injection hret with h
      omega
    · rw [if_neg hgap] at hret
      have hs0_cur2 : max cur be ≤ s0 := by
        rcases (by omega : s0 + dur ≤ bs ∨ be ≤ s0) with h | h
        · omega
        · exact max_le (by omega) h
      by_cases hbr : max cur be > we
      · rw [if_pos hbr] at hret
        split at hret
        · injection hret with h; omega
        · exact absurd hret (by simp)
      · rw [if_neg hbr] at hret
        exact ih (max cur be) s hret s0 hs0_cur2 hse
          (fun p hp => hdisj p (List.mem_cons_of_mem _ hp))

/-- C1: for a busy list that is sorted ascending and mutually
non-overlapping within the working-hours window `[ws, we]`, and a positive
duration `d` for which the window has room (some in-window start of length
`d` avoids every busy interval), `_find_free_slot`'s gap scan returns a
slot `[s, s+d]` with `s ≥ ws`, `s + d ≤ we`, disjoint from every busy
interval. -/
theorem findFreeSlot_sound (ws we d : Int) (busy : List Ival)
    (hchain : BusyChain busy) (hwin : BusyInWindow ws we busy)
    (hd : 0 < d)
    (hfits : ∃ s0, ws ≤ s0 ∧ s0 + d ≤ we ∧ DisjointAll busy s0 (s0 + d)) :
    ∃ s, findFreeSlot ws we busy d = some (s, s + d) ∧
      ws ≤ s ∧ s + d ≤ we ∧ DisjointAll busy s (s + d) := by
  obtain ⟨s, heq, h1, h2, h3⟩ :=
    scanGaps_sound we d busy ws hchain (fun p hp => hwin p hp) hd hfits
  refine ⟨s, ?_, h1, h2, h3⟩
  simp only [findFreeSlot]
  rw [if_neg (by omega), heq, Option.map_some']

/-- C1 witness: the spec's end-to-end scenario — window 9:00–18:00
(minutes 540–1080), one busy interval 10:00–11:00, duration 90; the
returned slot is valid (and is 11:00–12:30). -/
theorem findFreeSlot_sound_witness :
    BusyChain [((600 : Int), (660 : Int))] ∧
    BusyInWindow 540 1080 [(600, 660)] ∧
    (0 : Int) < 90 ∧
    (∃ s, findFreeSlot 540 1080 [(600, 660)] 90 = some (s, s + 90) ∧
      540 ≤ s ∧ s + 90 ≤ 1080 ∧ DisjointAll [(600, 660)] s (s + 90)) :=
  ⟨by constructor <;> simp, by decide, by decide,
    findFreeSlot_sound 540 1080 90 [(600, 660)]
      (by constructor <;> simp) (by decide) (by decide)
      ⟨660, by decide, by decide, by decide⟩⟩

/-- C2: the gap scan is earliest-fit — for a sorted, mutually
non-overlapping busy set and positive duration `d`, no start strictly
earlier than the returned one begins an in-window slot of length `d`
disjoint from every busy interval. -/
theorem findFreeSlot_earliest (ws we d : Int) (busy : List Ival)
    (hchain : BusyChain busy) (hd : 0 < d) (s e : Int)
    (hret : findFreeSlot ws we busy d = some (s, e)) :
    ∀ s0, ws ≤ s0 → s0 + d ≤ we → DisjointAll busy s0 (s0 + d) → s ≤ s0 := by
  intro s0 h1 h2 h3
  simp only [findFreeSlot] at hret
  rw [if_neg (by omega)] at hret
  cases hscan : scanGaps we d ws busy with
  | none => rw [hscan] at hret; exact absurd hret (by simp)
  | some s1 =>
    rw [hscan, Option.map_some'] at hret
    injection hret with hpair
    have hs : s1 = s := congrArg Prod.fst hpair
    rw [← hs]
    exact scanGaps_earliest we d hd busy ws s1 hscan s0 h1 h2 h3

/-- C2 witness: with the 10:00–11:00 meeting busy and duration 30, the
scan returns 9:00, which is no later than the valid start 11:00. -/
theorem findFreeSlot_earliest_witness :
    findFreeSlot 540 1080 [((600 : Int), (660 : Int))] 30 = some (540, 570) ∧
    (540 : Int) ≤ 660 :=
  ⟨by decide,
    findFreeSlot_earliest 540 1080 30 [(600, 660)]
      (by constructor <;> simp) (by decide) 540 570 (by decide)
      660 (by decide) (by decide) (by decide)⟩

/-! ## Step-jump slot finder (`GoogleServices.find_free_slot`, backend/main.py)

Minutes-since-epoch model of the canonical-zone wall clock:
`hourOf`/`minuteOf` are Python's `.hour`/`.minute`, `dayOf` the date. -/

def hourOf (m : Int) : Int := (m % 1440) / 60

def minuteOf (m : Int) : Int := m % 60

def dayOf (m : Int) : Int := m / 1440

/-- The in-loop jump target: the end of the conflicting busy slot, rounded
up to the next 5-minute mark (`current_time.minute % 5`). -/
def round5 (m : Int) : Int :=
  if m % 5 ≠ 0 then m + (5 - m % 5) else m

/-- The bounded 96-iteration scan inside the `try` block.  `st` is the
(already adjusted) `start_time`; exhausting the fuel returns `st`.
When a candidate slot leaves working hours, the code computes
`(current_time.date() + timedelta(days=1)).replace(hour=9, minute=0)`,
and `date.replace` has no `hour` argument, so a `TypeError` is raised and
caught by the surrounding `except`, which returns `st` as well. -/
def gScanLoop (busy : List Ival) (dur st : Int) : Nat → Int → Int
  | 0, _ => st
  | n + 1, cur =>
    let endT := cur + dur
    if hourOf cur < 9 ∨ 18 < hourOf endT ∨ (hourOf endT = 18 ∧ 0 < minuteOf endT)
    then st
    else
      match busy.find? (fun p => decide (cur < p.2) && decide (p.1 < endT)) with
      | some p => gScanLoop busy dur st n (round5 p.2)
      | none => cur

/-- The `try` block: a failing free/busy query is caught and the adjusted
start time is returned. -/
def gRun (busyQ : Except Unit (List Ival)) (dur st : Int) : Except Unit Int :=
  match busyQ with
  | .error _ => .ok st
  | .ok busy => .ok (gScanLoop busy dur st 96 st)

/-- `GoogleServices.find_free_slot(start_time, duration_minutes)`:
clamp a pre-9:00 start to 9:00 the same day; a start at hour ≥ 18 runs
`(start_time.date() + timedelta(days=1)).replace(hour=9, minute=0)`
*before* the `try` block — `date.replace` rejects `hour`, so the
`TypeError` propagates to the caller. -/
def googleFindFreeSlot (busyQ : Except Unit (List Ival)) (start0 dur : Int) :
    Except Unit Int :=
  if hourOf start0 < 9 then gRun busyQ dur (dayOf start0 * 1440 + 540)
  else if 18 ≤ hourOf start0 then .error ()
  else gRun busyQ dur start0

/-- C9: the two slot-finding strategies are not equivalent.  With the day
window 9:00–18:00, one busy interval 9:00–9:57 and duration 60, the
gap scan of `scheduler_engine.py` starts the slot at 9:57, while the
step-jump scanner of `backend/main.py` rounds the jump target up to the
5-minute grid and starts at 10:00. -/
theorem findSlot_strategies_differ :
    findFreeSlot 540 1080 [((540 : Int), (597 : Int))] 60 = some (597, 657) ∧
    googleFindFreeSlot (.ok [(540, 597)]) 540 60 = .ok 600 ∧
    (597 : Int) ≠ 600 := by
  refine ⟨by decide, ?_, by decide⟩
  rfl

/-- C10 (amended): for a requested start whose hour is below 18 (after
the pre-9:00 clamp the scan therefore starts in working hours), the
step-jump finder never signals failure: it always returns `.ok`, and when
the free/busy query raises it returns exactly the working-hours-adjusted
requested start.  (For a start at hour ≥ 18 the adjustment itself raises,
see `googleFindFreeSlot_raises_after_hours`.) -/
theorem googleFindFreeSlot_fallback (busyQ : Except Unit (List Ival))
    (start0 dur : Int) (h : hourOf start0 < 18) :
    (googleFindFreeSlot busyQ start0 dur).isOk = true ∧
    googleFindFreeSlot (Except.error ()) start0 dur =
      .ok (if hourOf start0 < 9 then dayOf start0 * 1440 + 540 else start0) := by
  constructor
  · simp only [googleFindFreeSlot]
    by_cases h9 : hourOf start0 < 9
    · rw [if_pos h9]; cases busyQ <;> rfl
    · rw [if_neg h9, if_neg (by omega)]; cases busyQ <;> rfl
  · simp only [googleFindFreeSlot]
    by_cases h9 : hourOf start0 < 9
    · rw [if_pos h9, if_pos h9]; rfl
    · rw [if_neg h9, if_neg (by omega), if_neg h9]; rfl

/-- C10 witness: a request at 10:00 (minute 600) with a failing free/busy
query returns `.ok 600`, and a request with a concrete busy list also
returns `.ok`. -/
theorem googleFindFreeSlot_fallback_witness :
    hourOf 600 < 18 ∧
    (googleFindFreeSlot (.ok [((540 : Int), (1080 : Int))]) 600 60).isOk = true ∧
    googleFindFreeSlot (Except.error ()) 600 60 =
      .ok (if hourOf 600 < 9 then dayOf 600 * 1440 + 540 else 600) :=
  ⟨by decide,
    (googleFindFreeSlot_fallback (.ok [(540, 1080)]) 600 60 (by decide)).1,
    (googleFindFreeSlot_fallback (.ok [(540, 1080)]) 600 60 (by decide)).2⟩

/-- C10 counterexample: the finder *can* signal failure — a request whose
start hour is ≥ 18 (here 18:00, minute 1080) raises an uncaught
`TypeError` (`date.replace` given `hour=`) instead of returning the
adjusted start. -/
theorem googleFindFreeSlot_raises_after_hours :
    googleFindFreeSlot (.ok []) 1080 60 = .error () := by
  rfl

/-! ## Backend task model (`class Task(BaseModel)`, backend/main.py)

`id`/`title` strings are kept; free-text normalisation (`.strip()`,
`.capitalize()`) is abstracted away as it never affects the claims. -/

structure BTask where
  id : String
  title : String
  dueDate : Option Int := none
  duration : Option Int := some 60
  planDay : String := "unscheduled"
  needsClarification : Bool := false
  pendingQuestions : List String := []
  calendarEventId : Option String := none
  isExternal : Bool := false
  deriving Repr, DecidableEq

/-! ## Bucket classifier (`simple_plan`, backend/main.py) -/

/-- The per-task body of `simple_plan`'s loop: `needsClarification` tasks
are forced to `unscheduled`; otherwise the due date's calendar date is
compared with today's and tomorrow's. -/
def simplePlanTask (now : Int) (t : BTask) : BTask :=
  if t.needsClarification then { t with planDay := "unscheduled" }
  else
    match t.dueDate with
    | some due =>
      if dayOf due = dayOf now then { t with planDay := "today" }
      else if dayOf due = dayOf (now + 1440) then { t with planDay := "tomorrow" }
      else { t with planDay := "unscheduled" }
    | none => { t with planDay := "unscheduled" }

/-- `simple_plan(state)`: reclassify every task. -/
def simplePlan (now : Int) (tasks : List BTask) : List BTask :=
  tasks.map (simplePlanTask now)

/-- C8: after a bucket-classification pass, a task without
`needsClarification` is bucketed `today` exactly when its due date's
calendar date is the current date, `tomorrow` exactly when it is the
current date plus one, and `unscheduled` otherwise or when the due date is
absent; a task with `needsClarification` is always `unscheduled`. -/
theorem simplePlan_buckets (now : Int) (tasks : List BTask) (i : Nat)
    (t0 : BTask) (hget : tasks.get? i = some t0) :
    ∃ t, (simplePlan now tasks).get? i = some t ∧
      (t0.needsClarification = true → t.planDay = "unscheduled") ∧
      (t0.needsClarification = false →
        ((t.planDay = "today" ↔ ∃ d, t0.dueDate = some d ∧ dayOf d = dayOf now) ∧
         (t.planDay = "tomorrow" ↔
           ∃ d, t0.dueDate = some d ∧ dayOf d = dayOf now + 1) ∧
         (t.planDay = "unscheduled" ↔
           ∀ d, t0.dueDate = some d →
             dayOf d ≠ dayOf now ∧ dayOf d ≠ dayOf now + 1))) := by
  refine ⟨simplePlanTask now t0, ?_, ?_, ?_⟩
  · simp only [simplePlan, List.get?_map, hget, Option.map_some']
  · intro hc
    simp [simplePlanTask, hc]
  · intro hc
    have hday : dayOf (now + 1440) = dayOf now + 1 := by
      simp only [dayOf]; omega
    cases hdue : t0.dueDate with
    | none => simp [simplePlanTask, hc, hdue]
    | some d =>
      by_cases h1 : dayOf d = dayOf now
      · simp [simplePlanTask, hc, hdue, h1, hday]
      · by_cases h2 : dayOf d = dayOf now + 1
        · simp [simplePlanTask, hc, hdue, h1, h2, hday]
        · simp [simplePlanTask, hc, hdue, h1, h2, hday]

/-- C8 witness: a three-task state (due today, due tomorrow,
`needsClarification` with due today) at noon of day 0. -/
theorem simplePlan_buckets_witness :
    ([⟨"a", "a", some 600, some 60, "unscheduled", false, [], none, false⟩] :
        List BTask).get? 0 =
      some ⟨"a", "a", some 600, some 60, "unscheduled", false, [], none, false⟩ ∧
    ∃ t, (simplePlan 720
        [⟨"a", "a", some 600, some 60, "unscheduled", false, [], none, false⟩]).get? 0 =
        some t ∧
      (false = true → t.planDay = "unscheduled") ∧
      (false = false →
        ((t.planDay = "today" ↔
           ∃ d, (some (600 : Int)) = some d ∧ dayOf d = dayOf 720) ∧
         (t.planDay = "tomorrow" ↔
           ∃ d, (some (600 : Int)) = some d ∧ dayOf d = dayOf 720 + 1) ∧
         (t.planDay = "unscheduled" ↔
           ∀ d, (some (600 : Int)) = some d →
             dayOf d ≠ dayOf 720 ∧ dayOf d ≠ dayOf 720 + 1))) :=
  ⟨rfl, by
    have h := simplePlan_buckets 720
      [⟨"a", "a", some 600, some 60, "unscheduled", false, [], none, false⟩]
      0 ⟨"a", "a", some 600, some 60, "unscheduled", false, [], none, false⟩ rfl
    exact h⟩

/-! ## Gmail parser output (`parse_gmail_tasks`, backend/main.py)

The LLM reply is abstracted to a list of parsed items
`(title, due, duration_minutes)`; the function keeps items with a
non-empty title and builds tasks with `isExternal=True` and all other
flags left at their defaults (`needsClarification=False`). -/

def parseGmailTasks (items : List (String × Option Int × Option Int)) :
    List BTask :=
  items.filterMap (fun it =>
    if it.1 = "" then none
    else some
      { id := it.1, title := it.1, dueDate := it.2.1,
        duration := some (it.2.2.getD 60), planDay := "unscheduled",
        isExternal := true })

/-! ## Full-sync auto-booking step (`run_full_sync` steps 5–6,
backend/main.py)

```python
tasks_to_plan = [t for t in STATE.tasks
                 if t.dueDate is None and t.planDay == "unscheduled"
                 and not t.needsClarification]
for task in tasks_to_plan:
    ai_due_date = get_ai_deadline(task.title, calendar_context)
    if ai_due_date: task.dueDate = ai_due_date
tasks_to_schedule = [t for t in tasks_to_plan if t.dueDate]
gmail_tasks_with_dates = [t for t in gmail_tasks
                          if t.dueDate and t not in tasks_to_schedule]
tasks_to_schedule.extend(gmail_tasks_with_dates)
for task in tasks_to_schedule:
    try:
        ... find_free_slot ... create_event ...
        task.calendarEventId = event_id
        task.dueDate = final_start_time
    except Exception: ...
```

`aiDue` abstracts `get_ai_deadline`, `create` abstracts
`GoogleServices.create_event` (`none` = the call raised, caught by the
per-task `except`). -/

/-- The `tasks_to_schedule` list assembled by `run_full_sync`. -/
def fullSyncTasksToSchedule (stateTasks gmailTasks : List BTask)
    (aiDue : BTask → Option Int) : List BTask :=
  let tasksToPlan := stateTasks.filter (fun t =>
    t.dueDate.isNone && t.planDay == "unscheduled" && !t.needsClarification)
  let planned := tasksToPlan.map (fun t =>
    match aiDue t with
    | some d => { t with dueDate := some d }
    | none => t)
  let tasksToSchedule := planned.filter (fun t => t.dueDate.isSome)
  let gmailWithDates := gmailTasks.filter (fun t =>
    t.dueDate.isSome && !(tasksToSchedule.contains t))
  tasksToSchedule ++ gmailWithDates

/-- The booking loop of `run_full_sync`: the per-task `try` swallows any
failure, a successful `create_event` sets `calendarEventId` and overwrites
`dueDate` with the placed start. -/
def fullSyncBook (busyQ : Except Unit (List Ival))
    (create : BTask → Int → Int → Option String) (t : BTask) : BTask :=
  match t.dueDate with
  | none => t
  | some st =>
    match googleFindFreeSlot busyQ st (t.duration.getD 60) with
    | .error _ => t
    | .ok fs =>
      match create t fs (fs + t.duration.getD 60) with
      | none => t
      | some eid => { t with calendarEventId := some eid, dueDate := some fs }

/-- The full auto-booking step: every task in `tasks_to_schedule` goes
through the booking loop. -/
def fullSyncSchedule (stateTasks gmailTasks : List BTask)
    (aiDue : BTask → Option Int) (busyQ : Except Unit (List Ival))
    (create : BTask → Int → Int → Option String) : List BTask :=
  (fullSyncTasksToSchedule stateTasks gmailTasks aiDue).map
    (fullSyncBook busyQ create)

/-- A Gmail task used in the C3 counterexample: external, with a due
date at 10:00 of day 0. -/
def gmailExternalTask : BTask :=
  { id := "g1", title := "Submit report", dueDate := some 600,
    duration := some 60, planDay := "unscheduled", isExternal := true }

/-- C3 counterexample: `run_full_sync` *does* auto-book an external task.
A Gmail-parsed task (`isExternal = true`) with a due date lands in
`tasks_to_schedule` and receives a `calendarEventId` from the booking
loop, refuting "tasks with isExternal = true are never auto-booked". -/
theorem fullSync_books_external_task :
    parseGmailTasks [("Submit report", some 600, some 60)] =
      [{ gmailExternalTask with id := "Submit report", title := "Submit report" }] ∧
    fullSyncSchedule [gmailExternalTask] [gmailExternalTask]
        (fun _ => none) (.ok []) (fun _ _ _ => some "evt-1") =
      [{ gmailExternalTask with
          calendarEventId := some "evt-1", dueDate := some 600 }] ∧
    gmailExternalTask.isExternal = true :=
  ⟨rfl, rfl, rfl⟩

/-- The booking loop never changes a task's `needsClarification` flag. -/
theorem fullSyncBook_preserves_nc (busyQ : Except Unit (List Ival))
    (create : BTask → Int → Int → Option String) (t : BTask) :
    (fullSyncBook busyQ create t).needsClarification =
      t.needsClarification := by
  unfold fullSyncBook
  split
  · rfl
  · split
    · rfl
    · split
      · rfl
      · rfl

/-- C3 (amended): what the selection actually guarantees is the
`needsClarification` half — no task booked by the full-sync step has
`needsClarification` set (state tasks are filtered on it, and every task
`parse_gmail_tasks` builds has it `False`); external Gmail tasks with a
due date, however, are auto-booked. -/
theorem fullSync_never_books_clarification (stateTasks : List BTask)
    (items : List (String × Option Int × Option Int))
    (aiDue : BTask → Option Int) (busyQ : Except Unit (List Ival))
    (create : BTask → Int → Int → Option String) :
    ∀ t ∈ fullSyncSchedule stateTasks (parseGmailTasks items) aiDue busyQ create,
      t.needsClarification = false := by
  intro t ht
  simp only [fullSyncSchedule, List.mem_map] at ht
  obtain ⟨t0, ht0, hbook⟩ := ht
  have hnc : t0.needsClarification = false := by
    simp only [fullSyncTasksToSchedule, List.mem_append, List.mem_filter,
      List.mem_map] at ht0
    rcases ht0 with ⟨⟨t1, ht1, heq⟩, _⟩ | ⟨hgm, _⟩
    · have h1 : t1.needsClarification = false := by
        obtain ⟨_, hf⟩ := ht1
        simp only [Bool.and_eq_true, Bool.not_eq_true'] at hf
        exact hf.2
      cases haidue : aiDue t1 <;> rw [haidue] at heq <;> rw [← heq]
      · exact h1
      · exact h1
    · simp only [parseGmailTasks, List.mem_filterMap] at hgm
      obtain ⟨it, _, hmk⟩ := hgm
      by_cases hemp : it.1 = ""
      · rw [if_pos hemp] at hmk; exact absurd hmk (by simp)
      · rw [if_neg hemp] at hmk
        injection hmk with hmk
        rw [← hmk]
  rw [← hbook, fullSyncBook_preserves_nc]
  exact hnc

/-- C3 witness (for the amended theorem): the task booked in the
concrete counterexample state is clarification-free. -/
theorem fullSync_never_books_clarification_witness :
    ({ gmailExternalTask with
        id := "Submit report", title := "Submit report",
        calendarEventId := some "evt-1", dueDate := some 600 } :
      BTask).needsClarification = false :=
  fullSync_never_books_clarification [gmailExternalTask]
    [("Submit report", some 600, some 60)] (fun _ => none) (.ok [])
    (fun _ _ _ => some "evt-1") _
    (show _ ∈ [({ gmailExternalTask with
        id := "Submit report", title := "Submit report",
        calendarEventId := some "evt-1", dueDate := some 600 } : BTask)]
      from List.mem_singleton.mpr rfl)

/-! ## Task store rows (`storage.py`) and the scheduling pass
(`plan_all_pending`, scheduler_engine.py)

`due` is a nullable `DateTime` column (minutes since epoch when present);
`duration_min` and `priority` are non-nullable integers with defaults 60
and 1.  Event ids are abstracted to `Nat`. -/

structure STask where
  title : String
  due : Option Int := none
  duration_min : Int := 60
  priority : Int := 1
  planned_at : Option Int := none
  calendar_event_id : Option Nat := none
  status : String := "pending"
  deriving Repr, DecidableEq

/-- Python `x or d` for an integer `x` (0 is falsy). -/
def pyOrInt (x d : Int) : Int := if x = 0 then d else x

/-! ### Stable sorting, as Python's `list.sort`

`insSorted` inserts before the first element that is not strictly below
the new one, so elements with equal keys keep their original order —
`list.sort` is stable. -/

def insSorted (lt : α → α → Bool) (a : α) : List α → List α
  | [] => [a]
  | b :: l => if lt b a then b :: insSorted lt a l else a :: b :: l

def isortBy (lt : α → α → Bool) : List α → List α
  | [] => []
  | a :: l => insSorted lt a (isortBy lt l)

/-- `busy.sort(key=lambda x: x[0])` in `_busy_intervals_for_day`. -/
def sortByStart (busy : List Ival) : List Ival :=
  isortBy (fun p q => decide (p.1 < q.1)) busy

/-- `_find_free_slot(d, duration_min)`: the working-hours window of day
`d` is 9:00–18:00 local, and the day's busy intervals (from the busy
fetcher, sorted by start) are scanned. -/
def findFreeSlotDay (busyFor : Int → List Ival) (d durMin : Int) :
    Option (Int × Int) :=
  findFreeSlot (d * 1440 + 540) (d * 1440 + 1080) (sortByStart (busyFor d)) durMin

/-- The `while d <= last_day` day walk of `plan_all_pending`, fuel-bounded
structurally (the fuel passed by `dayScan` covers every iteration the
Python loop performs). -/
def dayScanFuel (busyFor : Int → List Ival) (durMin : Int) :
    Nat → Int → Int → Option (Int × Int)
  | 0, _, _ => none
  | n + 1, d, lastDay =>
    if d > lastDay then none
    else
      match findFreeSlotDay busyFor d durMin with
      | some se => some se
      | none => dayScanFuel busyFor durMin n (d + 1) lastDay

def dayScan (busyFor : Int → List Ival) (durMin d lastDay : Int) :
    Option (Int × Int) :=
  dayScanFuel busyFor durMin ((lastDay + 1 - d).toNat + 1) d lastDay

/-- One task's booking attempt along the day walk (`due` is `None`, so
`last_day = today + 2` and `cur_day = min(today, last_day)`).  A slot
leads to a `create_event_summary` call; an adapter exception propagates
(`Except.error`). -/
def attemptTask (today : Int) (busyFor : Int → List Ival)
    (create : Int → Int → Except Unit Nat) (t : STask) :
    Except Unit (Option (Int × Int × Nat)) :=
  match dayScan busyFor (pyOrInt t.duration_min 60)
      (min today (today + 2)) (today + 2) with
  | none => .ok none
  | some (s, e) =>
    match create s e with
    | .error _ => .error ()
    | .ok eid => .ok (some (s, e, eid))

/-- The observable outcome of a pass: the updated task rows (positionally
aligned with the input), the bookings made `(index, start, end, eventId)`,
the indices whose slot search was reached (`attempts`), and whether an
exception escaped the pass (`raised`). -/
structure PassResult where
  tasks : List STask
  bookings : List (Nat × Int × Int × Nat)
  attempts : List Nat
  raised : Bool
  deriving Repr, DecidableEq

/-- The row mutation of a successful booking:
`t.status = "planned"; t.planned_at = start_dt; t.calendar_event_id = eid`
(`due` is untouched). -/
def bookedTask (t : STask) (s : Int) (eid : Nat) : STask :=
  { t with status := "planned", planned_at := some s,
           calendar_event_id := some eid }

/-- The per-task loop of `plan_all_pending` over the sorted pending queue
(tasks carry their position in the store).  A task with a due date hits
`min(today, t.due)` — a Python `date`/`datetime` comparison, which raises
`TypeError` before any slot search.  A booking mutates the row and
commits (`List.set`). -/
def passLoop (today : Int) (busyFor : Int → List Ival)
    (create : Int → Int → Except Unit Nat) :
    List (Nat × STask) → List STask → PassResult
  | [], acc => ⟨acc, [], [], false⟩
  | (i, t) :: rest, acc =>
    match t.due with
    | some _ => ⟨acc, [], [], true⟩
    | none =>
      match attemptTask today busyFor create t with
      | .error _ => ⟨acc, [], [i], true⟩
      | .ok none =>
        let r := passLoop today busyFor create rest acc
        ⟨r.tasks, r.bookings, i :: r.attempts, r.raised⟩
      | .ok (some (s, e, eid)) =>
        let r := passLoop today busyFor create rest (acc.set i (bookedTask t s eid))
        ⟨r.tasks, (i, s, e, eid) :: r.bookings, i :: r.attempts, r.raised⟩

/-- The pending queue: `db.query(Task).filter(Task.status == "pending")`,
keeping store positions. -/
def pendingIdx (tasks : List STask) : List (Nat × STask) :=
  tasks.enum.filter (fun p => p.2.status == "pending")

/-- `due_key`: the due datetime when present (minutes), otherwise the
fallback date `today + 2` (days).  The two kinds are never compared with
each other — Python raises `TypeError` on such a comparison, which
`planAllPending` models via `mixedDue`.  The secondary sort key is
`-(t.priority or 0)`, which equals `-t.priority` since the column is
non-nullable. -/
def sortKeyOf (today : Int) (p : Nat × STask) : Int × Int :=
  (match p.2.due with
   | some m => m
   | none => today + 2, -p.2.priority)

def ltKey (a b : Int × Int) : Bool :=
  decide (a.1 < b.1) || (decide (a.1 = b.1) && decide (a.2 < b.2))

/-- Whether the pending queue mixes tasks with and without due dates; if
so, `tasks.sort(...)` compares a `datetime` key with a `date` key and
raises `TypeError` before any mutation. -/
def mixedDue (ps : List (Nat × STask)) : Bool :=
  ps.any (fun p => p.2.due.isSome) && ps.any (fun p => p.2.due.isNone)

/-- The sorted pending queue of a pass. -/
def sortedQueue (today : Int) (tasks : List STask) : List (Nat × STask) :=
  isortBy (fun p q => ltKey (sortKeyOf today p) (sortKeyOf today q))
    (pendingIdx tasks)

/-- `plan_all_pending()`: query pending rows, sort by
`(due_key(t), -(t.priority or 0))` (stable), then walk the queue. -/
def planAllPending (today : Int) (busyFor : Int → List Ival)
    (create : Int → Int → Except Unit Nat) (tasks : List STask) :
    PassResult :=
  if mixedDue (pendingIdx tasks) then ⟨tasks, [], [], true⟩
  else passLoop today busyFor create (sortedQueue today tasks) tasks

/-- A plain pending task with no due date (the only kind the pass can
process to completion). -/
def pendingNoDueTask : STask := { title := "write report" }

/-- C4 counterexample: a successful booking in the pass leaves the task
with `status = "planned"` (not `"scheduled"`) and does *not* overwrite
`due` with the placed start — the placed start goes to `planned_at`.
With an empty calendar the task is placed at 9:00 of day 0 (minute 540),
yet its `due` stays `none` and its status is `"planned"`. -/
theorem planAllPending_books_planned_not_scheduled :
    planAllPending 0 (fun _ => []) (fun _ _ => Except.ok 7) [pendingNoDueTask] =
      ⟨[{ pendingNoDueTask with
          status := "planned", planned_at := some 540,
          calendar_event_id := some 7 }], [(0, 540, 600, 7)], [0], false⟩ ∧
    ({ pendingNoDueTask with
        status := "planned", planned_at := some 540,
        calendar_event_id := some 7 } : STask).status ≠ "scheduled" ∧
    ({ pendingNoDueTask with
        status := "planned", planned_at := some 540,
        calendar_event_id := some 7 } : STask).due = none :=
  ⟨rfl, by decide, rfl⟩

/-- C5 counterexample: a failing calendar-adapter call is *not* caught —
`create_event_summary` has no surrounding `try`, so the exception
propagates out of the pass (`raised = true`), instead of the task being
skipped and the pass continuing. -/
theorem planAllPending_adapter_error_raises :
    planAllPending 0 (fun _ => []) (fun _ _ => Except.error ())
      [pendingNoDueTask] = ⟨[pendingNoDueTask], [], [0], true⟩ :=
  rfl

/-- C6 counterexample: task `A` is due at 10:00 of day 0 (effective due
day 0) and task `B` has no due date (effective due day `today + 2 = 2`),
so the claim requires `A` to be attempted before `B`; instead the sort
key of `A` is a `datetime` and that of `B` a `date`, their comparison
raises `TypeError`, and *neither* task is ever attempted
(`attempts = []`, `raised = true`). -/
theorem planAllPending_mixed_due_no_attempts :
    planAllPending 0 (fun _ => []) (fun _ _ => Except.ok 7)
      [{ pendingNoDueTask with title := "A", due := some 600, priority := 5 },
       { pendingNoDueTask with title := "B" }] =
      ⟨[{ pendingNoDueTask with title := "A", due := some 600, priority := 5 },
        { pendingNoDueTask with title := "B" }], [], [], true⟩ ∧
    dayOf 600 < 0 + 2 :=
  ⟨rfl, by decide⟩

/-! ### Stable-sort lemmas -/

theorem insSorted_perm (lt : α → α → Bool) (a : α) :
    ∀ l : List α, (insSorted lt a l).Perm (a :: l) := by
  intro l
  induction l with
  | nil => exact List.Perm.refl _
  | cons b l ih =>
    simp only [insSorted]
    split
    · exact (ih.cons b).trans (List.Perm.swap a b l)
    · exact List.Perm.refl _

theorem isortBy_perm (lt : α → α → Bool) :
    ∀ l : List α, (isortBy lt l).Perm l := by
  intro l
  induction l with
  | nil => exact List.Perm.refl _
  | cons a l ih =>
    exact (insSorted_perm lt a (isortBy lt l)).trans (ih.cons a)

theorem insSorted_pairwise (lt : α → α → Bool)
    (hasym : ∀ x y, lt x y = true → lt y x = false)
    (htrans : ∀ x y z, lt y x = false → lt z y = false → lt z x = false)
    (a : α) :
    ∀ l : List α, l.Pairwise (fun x y => lt y x = false) →
      (insSorted lt a l).Pairwise (fun x y => lt y x = false) := by
  intro l
  induction l with
  | nil =>
    intro _
    exact List.pairwise_singleton _ _
  | cons b l ih =>
    intro h
    obtain ⟨hb, hl⟩ := List.pairwise_cons.mp h
    simp only [insSorted]
    by_cases hlt : lt b a = true
    · rw [if_pos hlt]
      refine List.pairwise_cons.mpr ⟨?_, ih hl⟩
      intro w hw
      have hw2 := (insSorted_perm lt a l).mem_iff.mp hw
      rcases List.mem_cons.mp hw2 with hw2 | hw2
      · exact hw2 ▸ hasym b a hlt
      · exact hb w hw2
    · rw [if_neg hlt]
      have hba : lt b a = false := by
        cases hba : lt b a
        · rfl
        · exact absurd hba hlt
      refine List.pairwise_cons.mpr ⟨?_, h⟩
      intro w hw
      rcases List.mem_cons.mp hw with hw | hw
      · exact hw ▸ hba
      · exact htrans a b w hba (hb w hw)

theorem isortBy_pairwise (lt : α → α → Bool)
    (hasym : ∀ x y, lt x y = true → lt y x = false)
    (htrans : ∀ x y z, lt y x = false → lt z y = false → lt z x = false) :
    ∀ l : List α, (isortBy lt l).Pairwise (fun x y => lt y x = false) := by
  intro l
  induction l with
  | nil => exact List.Pairwise.nil
  | cons a l ih => exact insSorted_pairwise lt hasym htrans a _ ih

theorem ltKey_asymm (x y : Int × Int) :
    ltKey x y = true → ltKey y x = false := by
  simp only [ltKey, Bool.or_eq_true, Bool.and_eq_true, decide_eq_true_eq,
    Bool.or_eq_false_iff, Bool.and_eq_false_iff, decide_eq_false_iff_not]
  omega

theorem ltKey_le_trans (x y z : Int × Int) :
    ltKey y x = false → ltKey z y = false → ltKey z x = false := by
  simp only [ltKey, Bool.or_eq_false_iff, Bool.and_eq_false_iff,
    decide_eq_false_iff_not]
  omega

theorem ltKey_mk_true (a1 a2 b1 b2 : Int)
    (h : a1 < b1 ∨ (a1 = b1 ∧ a2 < b2)) : ltKey (a1, a2) (b1, b2) = true := by
  simp only [ltKey, Bool.or_eq_true, Bool.and_eq_true, decide_eq_true_eq]
  omega

/-! ### Unfolding equations for `passLoop` -/

theorem passLoop_cons_due (today : Int) (busyFor : Int → List Ival)
    (create : Int → Int → Except Unit Nat) (i : Nat) (t : STask)
    (rest : List (Nat × STask)) (acc : List STask) (m : Int)
    (hd : t.due = some m) :
    passLoop today busyFor create ((i, t) :: rest) acc = ⟨acc, [], [], true⟩ := by
  simp [passLoop, hd]

theorem passLoop_cons_err (today : Int) (busyFor : Int → List Ival)
    (create : Int → Int → Except Unit Nat) (i : Nat) (t : STask)
    (rest : List (Nat × STask)) (acc : List STask)
    (hd : t.due = none)
    (ha : attemptTask today busyFor create t = .error ()) :
    passLoop today busyFor create ((i, t) :: rest) acc =
      ⟨acc, [], [i], true⟩ := by
  simp [passLoop, hd, ha]

theorem passLoop_cons_skip (today : Int) (busyFor : Int → List Ival)
    (create : Int → Int → Except Unit Nat) (i : Nat) (t : STask)
    (rest : List (Nat × STask)) (acc : List STask)
    (hd : t.due = none)
    (ha : attemptTask today busyFor create t = .ok none) :
    passLoop today busyFor create ((i, t) :: rest) acc =
      ⟨(passLoop today busyFor create rest acc).tasks,
       (passLoop today busyFor create rest acc).bookings,
       i :: (passLoop today busyFor create rest acc).attempts,
       (passLoop today busyFor create rest acc).raised⟩ := by
  simp [passLoop, hd, ha]

theorem passLoop_cons_book (today : Int) (busyFor : Int → List Ival)
    (create : Int → Int → Except Unit Nat) (i : Nat) (t : STask)
    (rest : List (Nat × STask)) (acc : List STask) (s e : Int) (eid : Nat)
    (hd : t.due = none)
    (ha : attemptTask today busyFor create t = .ok (some (s, e, eid))) :
    passLoop today busyFor create ((i, t) :: rest) acc =
      ⟨(passLoop today busyFor create rest (acc.set i (bookedTask t s eid))).tasks,
       (i, s, e, eid) ::
         (passLoop today busyFor create rest (acc.set i (bookedTask t s eid))).bookings,
       i :: (passLoop today busyFor create rest (acc.set i (bookedTask t s eid))).attempts,
       (passLoop today busyFor create rest (acc.set i (bookedTask t s eid))).raised⟩ := by
  simp [passLoop, hd, ha]

/-! ### Invariants of the pass loop -/

/-- Positions not named in the queue are never modified. -/
theorem passLoop_stable (today : Int) (busyFor : Int → List Ival)
    (create : Int → Int → Except Unit Nat) :
    ∀ (queue : List (Nat × STask)) (acc : List STask) (j : Nat),
      (∀ p ∈ queue, p.1 ≠ j) →
      (passLoop today busyFor create queue acc).tasks.get? j = acc.get? j := by
  intro queue
  induction queue with
  | nil => intro acc j _; rfl
  | cons p rest ih =>
    intro acc j h
    obtain ⟨i, t⟩ := p
    have hij : i ≠ j := h (i, t) (List.mem_cons_self _ _)
    have hrest : ∀ q ∈ rest, q.1 ≠ j := fun q hq => h q (List.mem_cons_of_mem _ hq)
    cases hdue : t.due with
    | some m => rw [passLoop_cons_due today busyFor create i t rest acc m hdue]
    | none =>
      cases hat : attemptTask today busyFor create t with
      | error u =>
        cases u
        rw [passLoop_cons_err today busyFor create i t rest acc hdue hat]
      | ok o =>
        cases o with
        | none =>
          rw [passLoop_cons_skip today busyFor create i t rest acc hdue hat]
          exact ih acc j hrest
        | some triple =>
          obtain ⟨s, e, eid⟩ := triple
          rw [passLoop_cons_book today busyFor create i t rest acc s e eid hdue hat]
          rw [ih _ j hrest]
          exact List.get?_set_ne _ _ hij

/-- Every booking's index names a queue element. -/
theorem passLoop_bookings_fst (today : Int) (busyFor : Int → List Ival)
    (create : Int → Int → Except Unit Nat) :
    ∀ (queue : List (Nat × STask)) (acc : List STask)
      (b : Nat × Int × Int × Nat),
      b ∈ (passLoop today busyFor create queue acc).bookings →
      b.1 ∈ queue.map Prod.fst := by
  intro queue
  induction queue with
  | nil => intro acc b hb; exact absurd hb (by simp [passLoop])
  | cons p rest ih =>
    intro acc b hb
    obtain ⟨i, t⟩ := p
    cases hdue : t.due with
    | some m =>
      rw [passLoop_cons_due today busyFor create i t rest acc m hdue] at hb
      exact absurd hb (by simp)
    | none =>
      cases hat : attemptTask today busyFor create t with
      | error u =>
        cases u
        rw [passLoop_cons_err today busyFor create i t rest acc hdue hat] at hb
        exact absurd hb (by simp)
      | ok o =>
        cases o with
        | none =>
          rw [passLoop_cons_skip today busyFor create i t rest acc hdue hat] at hb
          exact List.mem_cons_of_mem _ (ih acc b hb)
        | some triple =>
          obtain ⟨s, e, eid⟩ := triple
          rw [passLoop_cons_book today busyFor create i t rest acc s e eid hdue hat] at hb
          simp only [List.map_cons]
          rcases List.mem_cons.mp hb with hb | hb
          · subst hb; exact List.mem_cons_self _ _
          · exact List.mem_cons_of_mem _ (ih _ b hb)

/-- Each booking corresponds to a pending row of the store that the pass
rewrites in place to the `bookedTask` mutation. -/
theorem passLoop_booked (today : Int) (busyFor : Int → List Ival)
    (create : Int → Int → Except Unit Nat) :
    ∀ (queue : List (Nat × STask)) (acc : List STask),
      queue.Pairwise (fun p q => p.1 ≠ q.1) →
      (∀ p ∈ queue, acc.get? p.1 = some p.2 ∧ p.2.status = "pending") →
      ∀ (i : Nat) (s e : Int) (eid : Nat),
        (i, s, e, eid) ∈ (passLoop today busyFor create queue acc).bookings →
        ∃ t, acc.get? i = some t ∧ t.status = "pending" ∧
          (passLoop today busyFor create queue acc).tasks.get? i =
            some (bookedTask t s eid) := by
  intro queue
  induction queue with
  | nil =>
    intro acc _ _ i s e eid hb
    exact absurd hb (by simp [passLoop])
  | cons p rest ih =>
    intro acc hnd hacc i s e eid hb
    obtain ⟨j, t⟩ := p
    obtain ⟨hhd, htl⟩ := List.pairwise_cons.mp hnd
    obtain ⟨hj_get, hj_st⟩ := hacc (j, t) (List.mem_cons_self _ _)
    cases hdue : t.due with
    | some m =>
      rw [passLoop_cons_due today busyFor create j t rest acc m hdue] at hb ⊢
      exact absurd hb (by simp)
    | none =>
      cases hat : attemptTask today busyFor create t with
      | error u =>
        cases u
        rw [passLoop_cons_err today busyFor create j t rest acc hdue hat] at hb ⊢
        exact absurd hb (by simp)
      | ok o =>
        cases o with
        | none =>
          rw [passLoop_cons_skip today busyFor create j t rest acc hdue hat] at hb ⊢
          exact ih acc htl
            (fun q hq => hacc q (List.mem_cons_of_mem _ hq)) i s e eid hb
        | some triple =>
          obtain ⟨s0, e0, eid0⟩ := triple
          rw [passLoop_cons_book today busyFor create j t rest acc s0 e0 eid0
            hdue hat] at hb ⊢
          simp only at hb
          rcases List.mem_cons.mp hb with hb | hb
          · -- the head booking: this very row was set to its booked form
            simp only [Prod.mk.injEq] at hb
            obtain ⟨h1, h2, _h3, h4⟩ := hb
            subst h1; subst h2; subst h4
            refine ⟨t, hj_get, hj_st, ?_⟩
            rw [passLoop_stable today busyFor create rest _ i
              (fun q hq => (hhd q hq).symm)]
            have hlen : i < acc.length := (List.get?_eq_some.mp hj_get).choose
            rw [List.get?_set_eq_of_lt _ hlen]
          · -- a booking made further down the queue
            have hmem := passLoop_bookings_fst today busyFor create rest _
              (i, s, e, eid) hb
            simp only [List.mem_map] at hmem
            obtain ⟨q, hq_mem, hq_fst⟩ := hmem
            have hji : j ≠ i := hq_fst ▸ hhd q hq_mem
            obtain ⟨t', ht1, ht2, ht3⟩ := ih _ htl
              (fun q hq => by
                rw [List.get?_set_ne _ _ (hhd q hq)]
                exact hacc q (List.mem_cons_of_mem _ hq))
              i s e eid hb
            rw [List.get?_set_ne _ _ hji] at ht1
            exact ⟨t', ht1, ht2, ht3⟩

/-- When every queued task lacks a due date and no attempt raises, the
pass completes without raising and attempts every queued task, in queue
order. -/
theorem passLoop_ok (today : Int) (busyFor : Int → List Ival)
    (create : Int → Int → Except Unit Nat) :
    ∀ (queue : List (Nat × STask)) (acc : List STask),
      (∀ p ∈ queue, p.2.due = none) →
      (∀ p ∈ queue, attemptTask today busyFor create p.2 ≠ .error ()) →
      (passLoop today busyFor create queue acc).raised = false ∧
      (passLoop today busyFor create queue acc).attempts =
        queue.map Prod.fst := by
  intro queue
  induction queue with
  | nil => intro acc _ _; exact ⟨rfl, rfl⟩
  | cons p rest ih =>
    intro acc hdue hok
    obtain ⟨i, t⟩ := p
    have hd : t.due = none := hdue (i, t) (List.mem_cons_self _ _)
    have hdue' : ∀ q ∈ rest, q.2.due = none :=
      fun q hq => hdue q (List.mem_cons_of_mem _ hq)
    have hok' : ∀ q ∈ rest, attemptTask today busyFor create q.2 ≠ .error () :=
      fun q hq => hok q (List.mem_cons_of_mem _ hq)
    cases hat : attemptTask today busyFor create t with
    | error u =>
      cases u
      exact absurd hat (hok (i, t) (List.mem_cons_self _ _))
    | ok o =>
      cases o with
      | none =>
        rw [passLoop_cons_skip today busyFor create i t rest acc hd hat]
        obtain ⟨h1, h2⟩ := ih acc hdue' hok'
        exact ⟨h1, by simp [h2]⟩
      | some triple =>
        obtain ⟨s, e, eid⟩ := triple
        rw [passLoop_cons_book today busyFor create i t rest acc s e eid hd hat]
        obtain ⟨h1, h2⟩ := ih (acc.set i (bookedTask t s eid)) hdue' hok'
        exact ⟨h1, by simp [h2]⟩

/-- A queued task whose attempt finds no slot is left exactly as it was
in the store. -/
theorem passLoop_skip_pos (today : Int) (busyFor : Int → List Ival)
    (create : Int → Int → Except Unit Nat) :
    ∀ (queue : List (Nat × STask)) (acc : List STask) (i : Nat) (t : STask),
      queue.Pairwise (fun p q => p.1 ≠ q.1) →
      (i, t) ∈ queue →
      (∀ p ∈ queue, p.2.due = none) →
      (∀ p ∈ queue, attemptTask today busyFor create p.2 ≠ .error ()) →
      attemptTask today busyFor create t = .ok none →
      (passLoop today busyFor create queue acc).tasks.get? i = acc.get? i := by
  intro queue
  induction queue with
  | nil => intro acc i t _ hin; exact absurd hin (by simp)
  | cons p rest ih =>
    intro acc i t hnd hin hdue hok hskip
    obtain ⟨j, u⟩ := p
    obtain ⟨hhd, htl⟩ := List.pairwise_cons.mp hnd
    have hd : u.due = none := hdue (j, u) (List.mem_cons_self _ _)
    have hdue' : ∀ q ∈ rest, q.2.due = none :=
      fun q hq => hdue q (List.mem_cons_of_mem _ hq)
    have hok' : ∀ q ∈ rest, attemptTask today busyFor create q.2 ≠ .error () :=
      fun q hq => hok q (List.mem_cons_of_mem _ hq)
    rcases List.mem_cons.mp hin with hin | hin
    · -- the skipped task is at the head of the queue
      simp only [Prod.mk.injEq] at hin
      obtain ⟨h1, h2⟩ := hin
      subst h1; subst h2
      rw [passLoop_cons_skip today busyFor create i t rest acc hd hskip]
      exact passLoop_stable today busyFor create rest acc i
        (fun q hq => (hhd q hq).symm)
    · -- the skipped task is further down
      have hji : j ≠ i := hhd (i, t) hin
      cases hat : attemptTask today busyFor create u with
      | error v =>
        cases v
        exact absurd hat (hok (j, u) (List.mem_cons_self _ _))
      | ok o =>
        cases o with
        | none =>
          rw [passLoop_cons_skip today busyFor create j u rest acc hd hat]
          exact ih acc i t htl hin hdue' hok' hskip
        | some triple =>
          obtain ⟨s, e, eid⟩ := triple
          rw [passLoop_cons_book today busyFor create j u rest acc s e eid hd hat]
          rw [ih _ i t htl hin hdue' hok' hskip]
          exact List.get?_set_ne _ _ hji

/-- When every queued task lacks a due date and finds no slot, the pass
is a no-op on the store. -/
theorem passLoop_all_skip (today : Int) (busyFor : Int → List Ival)
    (create : Int → Int → Except Unit Nat) :
    ∀ (queue : List (Nat × STask)) (acc : List STask),
      (∀ p ∈ queue, p.2.due = none ∧
        attemptTask today busyFor create p.2 = .ok none) →
      passLoop today busyFor create queue acc =
        ⟨acc, [], queue.map Prod.fst, false⟩ := by
  intro queue
  induction queue with
  | nil => intro acc _; rfl
  | cons p rest ih =>
    intro acc h
    obtain ⟨i, t⟩ := p
    obtain ⟨hd, hskip⟩ := h (i, t) (List.mem_cons_self _ _)
    rw [passLoop_cons_skip today busyFor create i t rest acc hd hskip,
      ih acc (fun q hq => h q (List.mem_cons_of_mem _ hq))]
    rfl

/-- Characterisation of each queued row after a pass that did not raise:
either its attempt found no slot and the row is untouched, or it was
booked and rewritten to its `bookedTask` form. -/
theorem passLoop_outcome (today : Int) (busyFor : Int → List Ival)
    (create : Int → Int → Except Unit Nat) :
    ∀ (queue : List (Nat × STask)) (acc : List STask),
      queue.Pairwise (fun p q => p.1 ≠ q.1) →
      (passLoop today busyFor create queue acc).raised = false →
      ∀ p ∈ queue, p.2.due = none ∧
        ((attemptTask today busyFor create p.2 = .ok none ∧
          (passLoop today busyFor create queue acc).tasks.get? p.1 =
            acc.get? p.1) ∨
         (∃ s e eid, attemptTask today busyFor create p.2 = .ok (some (s, e, eid)) ∧
          (passLoop today busyFor create queue acc).tasks.get? p.1 =
            (acc.set p.1 (bookedTask p.2 s eid)).get? p.1)) := by
  intro queue
  induction queue with
  | nil => intro acc _ _ p hp; exact absurd hp (by simp)
  | cons q rest ih =>
    intro acc hnd hraise p hp
    obtain ⟨j, u⟩ := q
    obtain ⟨hhd, htl⟩ := List.pairwise_cons.mp hnd
    cases hdue : u.due with
    | some m =>
      rw [passLoop_cons_due today busyFor create j u rest acc m hdue] at hraise
      exact absurd hraise (by simp)
    | none =>
      cases hat : attemptTask today busyFor create u with
      | error v =>
        cases v
        rw [passLoop_cons_err today busyFor create j u rest acc hdue hat] at hraise
        exact absurd hraise (by simp)
      | ok o =>
        cases o with
        | none =>
          rw [passLoop_cons_skip today busyFor create j u rest acc hdue hat]
            at hraise ⊢
          rcases List.mem_cons.mp hp with hp | hp
          · subst hp
            refine ⟨hdue, Or.inl ⟨hat, ?_⟩⟩
            exact passLoop_stable today busyFor create rest acc j
              (fun q hq => (hhd q hq).symm)
          · exact ih acc htl hraise p hp
        | some triple =>
          obtain ⟨s, e, eid⟩ := triple
          rw [passLoop_cons_book today busyFor create j u rest acc s e eid
            hdue hat] at hraise ⊢
          rcases List.mem_cons.mp hp with hp | hp
          · subst hp
            refine ⟨hdue, Or.inr ⟨s, e, eid, hat, ?_⟩⟩
            exact passLoop_stable today busyFor create rest _ j
              (fun q hq => (hhd q hq).symm)
          · have hjp : j ≠ p.1 := hhd p hp
            obtain ⟨hpd, hrest⟩ := ih _ htl hraise p hp
            refine ⟨hpd, ?_⟩
            rcases hrest with ⟨ha, hb⟩ | ⟨s1, e1, eid1, ha, hb⟩
            · exact Or.inl ⟨ha, by
                rw [hb, List.get?_set_ne _ _ hjp]⟩
            · exact Or.inr ⟨s1, e1, eid1, ha, by
                rw [hb, List.get?_set_eq, List.get?_set_eq,
                  List.get?_set_ne _ _ hjp]⟩

/-! ### The pending queue -/

theorem pendingIdx_mem_iff (tasks : List STask) (i : Nat) (t : STask) :
    (i, t) ∈ pendingIdx tasks ↔
      tasks.get? i = some t ∧ t.status = "pending" := by
  simp only [pendingIdx, List.mem_filter]
  constructor
  · rintro ⟨h1, h2⟩
    exact ⟨List.mem_enum_iff_get?.mp h1, by simpa using h2⟩
  · rintro ⟨h1, h2⟩
    exact ⟨List.mem_enum_iff_get?.mpr h1, by simpa using h2⟩

theorem enumFrom_pairwise_fst_lt (l : List α) :
    ∀ n : Nat, (l.enumFrom n).Pairwise (fun p q => p.1 < q.1) := by
  induction l with
  | nil => intro n; exact List.Pairwise.nil
  | cons a l ih =>
    intro n
    refine List.pairwise_cons.mpr ⟨?_, ih (n + 1)⟩
    intro q hq
    obtain ⟨i, b⟩ := q
    have := (List.mk_mem_enumFrom_iff_le_and_get?_sub.mp hq).1
    simpa using by omega

theorem pendingIdx_nodup_fst (tasks : List STask) :
    (pendingIdx tasks).Pairwise (fun p q => p.1 ≠ q.1) := by
  have h1 : tasks.enum.Pairwise (fun p q : Nat × STask => p.1 < q.1) :=
    enumFrom_pairwise_fst_lt tasks 0
  exact (h1.filter _).imp (fun h => by omega)

theorem sortedQueue_perm (today : Int) (tasks : List STask) :
    (sortedQueue today tasks).Perm (pendingIdx tasks) :=
  isortBy_perm _ _

theorem sortedQueue_mem_iff (today : Int) (tasks : List STask) (i : Nat)
    (t : STask) :
    (i, t) ∈ sortedQueue today tasks ↔
      tasks.get? i = some t ∧ t.status = "pending" :=
  ((sortedQueue_perm today tasks).mem_iff).trans (pendingIdx_mem_iff tasks i t)

theorem sortedQueue_nodup_fst (today : Int) (tasks : List STask) :
    (sortedQueue today tasks).Pairwise (fun p q => p.1 ≠ q.1) :=
  ((sortedQueue_perm today tasks).pairwise_iff
    (fun h => (h ∘ Eq.symm : _))).mpr (pendingIdx_nodup_fst tasks)

theorem mixedDue_eq_false {ps : List (Nat × STask)}
    (h : ∀ p ∈ ps, p.2.due = none) : mixedDue ps = false := by
  have hs : ps.any (fun p => p.2.due.isSome) = false := by
    rw [List.any_eq_false]
    intro p hp
    simp [h p hp]
  simp [mixedDue, hs]

/-- With a calendar adapter whose create call always succeeds, a booking
attempt never raises. -/
theorem attemptTask_ne_error (today : Int) (busyFor : Int → List Ival)
    (create : Int → Int → Except Unit Nat)
    (hCreate : ∀ s e, ∃ n, create s e = Except.ok n) (t : STask) :
    attemptTask today busyFor create t ≠ .error () := by
  unfold attemptTask
  cases hscan : dayScan busyFor (pyOrInt t.duration_min 60)
      (min today (today + 2)) (today + 2) with
  | none => simp
  | some se =>
    obtain ⟨s, e⟩ := se
    obtain ⟨n, hn⟩ := hCreate s e
    simp [hn]

/-- C4 (amended): after every successful booking in a pass, the booked
row has `status = "planned"` (the store's vocabulary; not `"scheduled"`),
a non-null `calendar_event_id`, and `planned_at` equal to the actual
placed start; `due` keeps its original value instead of being
overwritten. -/
theorem planAllPending_booked_fields (today : Int)
    (busyFor : Int → List Ival) (create : Int → Int → Except Unit Nat)
    (tasks : List STask) (i : Nat) (t : STask) (s e : Int) (eid : Nat)
    (hget : tasks.get? i = some t)
    (hb : (i, s, e, eid) ∈
      (planAllPending today busyFor create tasks).bookings) :
    t.status = "pending" ∧
    (planAllPending today busyFor create tasks).tasks.get? i =
      some { t with
             status := "planned", planned_at := some s,
             calendar_event_id := some eid } := by
  unfold planAllPending at hb ⊢
  by_cases hm : mixedDue (pendingIdx tasks) = true
  · rw [if_pos hm] at hb
    exact absurd hb (by simp)
  · rw [if_neg hm] at hb ⊢
    obtain ⟨t', h1, h2, h3⟩ := passLoop_booked today busyFor create
      (sortedQueue today tasks) tasks (sortedQueue_nodup_fst today tasks)
      (fun p hp => (sortedQueue_mem_iff today tasks p.1 p.2).mp hp)
      i s e eid hb
    rw [hget] at h1
    injection h1 with h1
    subst h1
    exact ⟨h2, h3⟩

/-- C4 witness: the single-task booking scenario — the booked row keeps
`due = none` and takes status `"planned"`, `planned_at = 540`,
`calendar_event_id = 7`. -/
theorem planAllPending_booked_fields_witness :
    ([pendingNoDueTask].get? 0 = some pendingNoDueTask) ∧
    ((0, 540, 600, 7) ∈ (planAllPending 0 (fun _ => [])
      (fun _ _ => Except.ok 7) [pendingNoDueTask]).bookings) ∧
    pendingNoDueTask.status = "pending" ∧
    (planAllPending 0 (fun _ => []) (fun _ _ => Except.ok 7)
        [pendingNoDueTask]).tasks.get? 0 =
      some { pendingNoDueTask with
             status := "planned", planned_at := some 540,
             calendar_event_id := some 7 } :=
  have hmem : (0, 540, 600, 7) ∈ (planAllPending 0 (fun _ => [])
      (fun _ _ => Except.ok 7) [pendingNoDueTask]).bookings :=
    show _ ∈ [((0 : Nat), (540 : Int), (600 : Int), (7 : Nat))] from
      List.mem_singleton.mpr rfl
  ⟨rfl, hmem,
    planAllPending_booked_fields 0 (fun _ => []) (fun _ _ => Except.ok 7)
      [pendingNoDueTask] 0 pendingNoDueTask 540 600 7 rfl hmem⟩

/-- C5 (amended): provided no pending task has a due date (otherwise the
`date`/`datetime` comparison raises) and the adapter's create call
succeeds, the pass completes without raising, every pending task is
attempted, and a task whose attempt finds no slot is left pending with
its fields unmutated while the pass continues; a failing adapter call,
by contrast, aborts the pass (see the counterexample). -/
theorem planAllPending_no_slot_skips (today : Int)
    (busyFor : Int → List Ival) (create : Int → Int → Except Unit Nat)
    (tasks : List STask) (i : Nat) (t : STask)
    (hNone : ∀ u ∈ tasks, u.status = "pending" → u.due = none)
    (hCreate : ∀ s e, ∃ n, create s e = Except.ok n)
    (hget : tasks.get? i = some t) (hst : t.status = "pending") :
    (planAllPending today busyFor create tasks).raised = false ∧
    i ∈ (planAllPending today busyFor create tasks).attempts ∧
    (attemptTask today busyFor create t = .ok none →
      (planAllPending today busyFor create tasks).tasks.get? i = some t) := by
  have hq_due : ∀ p ∈ sortedQueue today tasks, p.2.due = none := by
    intro p hp
    obtain ⟨h1, h2⟩ := (sortedQueue_mem_iff today tasks p.1 p.2).mp hp
    exact hNone p.2 (List.get?_mem h1) h2
  have hq_ok : ∀ p ∈ sortedQueue today tasks,
      attemptTask today busyFor create p.2 ≠ .error () :=
    fun p _ => attemptTask_ne_error today busyFor create hCreate p.2
  have hmixed : mixedDue (pendingIdx tasks) = false :=
    mixedDue_eq_false (fun p hp =>
      hq_due p ((sortedQueue_perm today tasks).mem_iff.mpr hp))
  have hin : (i, t) ∈ sortedQueue today tasks :=
    (sortedQueue_mem_iff today tasks i t).mpr ⟨hget, hst⟩
  obtain ⟨h1, h2⟩ := passLoop_ok today busyFor create
    (sortedQueue today tasks) tasks hq_due hq_ok
  unfold planAllPending
  rw [if_neg (by simp [hmixed])]
  refine ⟨h1, ?_, ?_⟩
  · rw [h2]
    exact List.mem_map_of_mem Prod.fst hin
  · intro hskip
    rw [passLoop_skip_pos today busyFor create (sortedQueue today tasks)
      tasks i t (sortedQueue_nodup_fst today tasks) hin hq_due hq_ok hskip]
    exact hget

/-- A calendar that is fully busy during working hours on every day. -/
def busyAllDay : Int → List Ival :=
  fun d => [(d * 1440 + 540, d * 1440 + 1080)]

/-- C5 witness: one pending task, every working day fully busy — the pass
completes, the task is attempted, and its row is untouched. -/
theorem planAllPending_no_slot_skips_witness :
    (planAllPending 0 busyAllDay (fun _ _ => Except.ok 7)
      [pendingNoDueTask]).raised = false ∧
    0 ∈ (planAllPending 0 busyAllDay (fun _ _ => Except.ok 7)
      [pendingNoDueTask]).attempts ∧
    (planAllPending 0 busyAllDay (fun _ _ => Except.ok 7)
        [pendingNoDueTask]).tasks.get? 0 = some pendingNoDueTask :=
  have h := planAllPending_no_slot_skips 0 busyAllDay
    (fun _ _ => Except.ok 7) [pendingNoDueTask] 0 pendingNoDueTask
    (by decide) (fun s e => ⟨7, rfl⟩) rfl rfl
  ⟨h.1, h.2.1, h.2.2 rfl⟩

/-- The position of the first occurrence of `x` in a list (0 when
absent at the end of the scan). -/
def posIn [DecidableEq α] (x : α) : List α → Nat
  | [] => 0
  | a :: l => if a = x then 0 else posIn x l + 1

/-- In a pairwise-ordered list, an element not related to another from
the right comes strictly first. -/
theorem pairwise_posIn_lt [DecidableEq α] {R : α → α → Prop} :
    ∀ (l : List α) (x y : α), l.Pairwise R → x ∈ l → y ∈ l → ¬ R y x →
      x ≠ y → posIn x l < posIn y l := by
  intro l
  induction l with
  | nil => intro x y _ hx _ _ _; exact absurd hx (by simp)
  | cons a l ih =>
    intro x y hp hx hy hR hxy
    obtain ⟨hhd, htl⟩ := List.pairwise_cons.mp hp
    by_cases hxa : a = x
    · have hay : ¬ a = y := fun h => hxy (hxa.symm.trans h)
      simp only [posIn, if_pos hxa, if_neg hay]
      exact Nat.succ_pos _
    · have hx' : x ∈ l := by
        rcases List.mem_cons.mp hx with h | h
        · exact absurd h.symm hxa
        · exact h
      by_cases hya : a = y
      · exact absurd (hya ▸ hhd x hx') hR
      · have hy' : y ∈ l := by
          rcases List.mem_cons.mp hy with h | h
          · exact absurd h.symm hya
          · exact h
        simp only [posIn, if_neg hxa, if_neg hya]
        exact Nat.succ_lt_succ (ih x y htl hx' hy' hR hxy)

/-- With distinct first components, the position of an index in the
projected list is the position of the pair. -/
theorem posIn_map_fst :
    ∀ (l : List (Nat × STask)) (p : Nat × STask),
      l.Pairwise (fun a b => a.1 ≠ b.1) → p ∈ l →
      posIn p.1 (l.map Prod.fst) = posIn p l := by
  intro l
  induction l with
  | nil => intro p _ hp; exact absurd hp (by simp)
  | cons q rest ih =>
    intro p hnd hp
    obtain ⟨hhd, htl⟩ := List.pairwise_cons.mp hnd
    by_cases hqp : q = p
    · simp only [List.map_cons, posIn, if_pos hqp, if_pos (congrArg Prod.fst hqp)]
    · have hp' : p ∈ rest := by
        rcases List.mem_cons.mp hp with h | h
        · exact absurd h.symm hqp
        · exact h
      have hq1 : ¬ q.1 = p.1 := hhd p hp'
      simp only [List.map_cons, posIn, if_neg hqp, if_neg hq1, ih p htl hp']

/-- C6 (amended): when every pending task lacks a due date — the only
configuration in which any task is attempted at all, since a task with a
due date makes the pass raise `TypeError` — and the adapter succeeds,
tasks with equal effective due dates are attempted in priority-descending
order: the higher-priority task strictly first.  The "earlier effective
due date first" half of the claim fails (see the counterexample). -/
theorem planAllPending_priority_order (today : Int)
    (busyFor : Int → List Ival) (create : Int → Int → Except Unit Nat)
    (tasks : List STask) (iA iB : Nat) (tA tB : STask)
    (hNone : ∀ u ∈ tasks, u.status = "pending" → u.due = none)
    (hCreate : ∀ s e, ∃ n, create s e = Except.ok n)
    (hgA : tasks.get? iA = some tA) (hsA : tA.status = "pending")
    (hgB : tasks.get? iB = some tB) (hsB : tB.status = "pending")
    (hne : iA ≠ iB) (hpri : tB.priority < tA.priority) :
    iA ∈ (planAllPending today busyFor create tasks).attempts ∧
    iB ∈ (planAllPending today busyFor create tasks).attempts ∧
    posIn iA (planAllPending today busyFor create tasks).attempts <
      posIn iB (planAllPending today busyFor create tasks).attempts := by
  have hq_due : ∀ p ∈ sortedQueue today tasks, p.2.due = none := by
    intro p hp
    obtain ⟨h1, h2⟩ := (sortedQueue_mem_iff today tasks p.1 p.2).mp hp
    exact hNone p.2 (List.get?_mem h1) h2
  have hq_ok : ∀ p ∈ sortedQueue today tasks,
      attemptTask today busyFor create p.2 ≠ .error () :=
    fun p _ => attemptTask_ne_error today busyFor create hCreate p.2
  have hmixed : mixedDue (pendingIdx tasks) = false :=
    mixedDue_eq_false (fun p hp =>
      hq_due p ((sortedQueue_perm today tasks).mem_iff.mpr hp))
  have hinA : (iA, tA) ∈ sortedQueue today tasks :=
    (sortedQueue_mem_iff today tasks iA tA).mpr ⟨hgA, hsA⟩
  have hinB : (iB, tB) ∈ sortedQueue today tasks :=
    (sortedQueue_mem_iff today tasks iB tB).mpr ⟨hgB, hsB⟩
  have hdA : tA.due = none := hq_due (iA, tA) hinA
  have hdB : tB.due = none := hq_due (iB, tB) hinB
  obtain ⟨_, h2⟩ := passLoop_ok today busyFor create
    (sortedQueue today tasks) tasks hq_due hq_ok
  unfold planAllPending
  rw [if_neg (by simp [hmixed]), h2]
  refine ⟨List.mem_map_of_mem Prod.fst hinA,
    List.mem_map_of_mem Prod.fst hinB, ?_⟩
  have hKA : sortKeyOf today (iA, tA) = (today + 2, -tA.priority) := by
    simp [sortKeyOf, hdA]
  have hKB : sortKeyOf today (iB, tB) = (today + 2, -tB.priority) := by
    simp [sortKeyOf, hdB]
  have hlt_true : ltKey (sortKeyOf today (iA, tA)) (sortKeyOf today (iB, tB))
      = true := by
    rw [hKA, hKB]
    exact ltKey_mk_true _ _ _ _ (Or.inr ⟨rfl, by omega⟩)
  have hsorted := isortBy_pairwise
    (fun p q : Nat × STask => ltKey (sortKeyOf today p) (sortKeyOf today q))
    (fun x y h => ltKey_asymm _ _ h)
    (fun x y z h1 h2 => ltKey_le_trans _ _ _ h1 h2)
    (pendingIdx tasks)
  have hRfalse : ¬ (ltKey (sortKeyOf today (iA, tA))
      (sortKeyOf today (iB, tB)) = false) := by
    rw [hlt_true]; simp
  have hidx := pairwise_posIn_lt (sortedQueue today tasks) (iA, tA) (iB, tB)
    hsorted hinA hinB hRfalse
    (fun h => hne (congrArg Prod.fst h))
  rw [posIn_map_fst (sortedQueue today tasks) (iA, tA)
      (sortedQueue_nodup_fst today tasks) hinA,
    posIn_map_fst (sortedQueue today tasks) (iB, tB)
      (sortedQueue_nodup_fst today tasks) hinB]
  exact hidx

/-- Two no-due pending tasks with different priorities for the C6
witness. -/
def lowPrioTask : STask := { title := "low", priority := 1 }

def highPrioTask : STask := { title := "high", priority := 5 }

/-- C6 witness: with two no-due pending tasks of priorities 1 and 5, the
priority-5 task (stored second) is attempted strictly before the
priority-1 task. -/
theorem planAllPending_priority_order_witness :
    1 ∈ (planAllPending 0 (fun _ => []) (fun _ _ => Except.ok 7)
      [lowPrioTask, highPrioTask]).attempts ∧
    0 ∈ (planAllPending 0 (fun _ => []) (fun _ _ => Except.ok 7)
      [lowPrioTask, highPrioTask]).attempts ∧
    posIn 1 (planAllPending 0 (fun _ => []) (fun _ _ => Except.ok 7)
      [lowPrioTask, highPrioTask]).attempts <
      posIn 0 (planAllPending 0 (fun _ => []) (fun _ _ => Except.ok 7)
        [lowPrioTask, highPrioTask]).attempts :=
  planAllPending_priority_order 0 (fun _ => []) (fun _ _ => Except.ok 7)
    [lowPrioTask, highPrioTask] 1 0 highPrioTask lowPrioTask
    (by decide) (fun s e => ⟨7, rfl⟩) rfl rfl rfl rfl (by decide) (by decide)

/-- C7: running the pass twice in succession on the same task set, with
no new tasks, unchanged busy-interval data and the same adapter, produces
no new bookings in the second run and leaves every row of the first run's
output — in particular every `calendar_event_id` — unchanged.  (The first
run is assumed to have completed, i.e. not to have aborted on an
exception.) -/
theorem planAllPending_idempotent (today : Int)
    (busyFor : Int → List Ival) (create : Int → Int → Except Unit Nat)
    (tasks : List STask) (i : Nat) (t : STask)
    (hraised : (planAllPending today busyFor create tasks).raised = false)
    (hget : (planAllPending today busyFor create tasks).tasks.get? i = some t) :
    (planAllPending today busyFor create
        (planAllPending today busyFor create tasks).tasks).bookings = [] ∧
    (planAllPending today busyFor create
        (planAllPending today busyFor create tasks).tasks).tasks.get? i =
      some t := by
  by_cases hm : mixedDue (pendingIdx tasks) = true
  · unfold planAllPending at hraised
    rw [if_pos hm] at hraised
    exact absurd hraised (by simp)
  · have hr1 : planAllPending today busyFor create tasks =
        passLoop today busyFor create (sortedQueue today tasks) tasks := by
      unfold planAllPending
      rw [if_neg hm]
    rw [hr1] at hraised hget ⊢
    have hA : ∀ p ∈ pendingIdx
        (passLoop today busyFor create (sortedQueue today tasks) tasks).tasks,
        p.2.due = none ∧ attemptTask today busyFor create p.2 = .ok none := by
      intro p hp
      obtain ⟨hget2, hpend⟩ :=
        (pendingIdx_mem_iff _ p.1 p.2).mp hp
      by_cases hq : p.1 ∈ (sortedQueue today tasks).map Prod.fst
      · obtain ⟨q, hq_mem, hq_fst⟩ := List.mem_map.mp hq
        obtain ⟨hq_get, hq_pend⟩ :=
          (sortedQueue_mem_iff today tasks q.1 q.2).mp hq_mem
        obtain ⟨hqdue, hcase⟩ := passLoop_outcome today busyFor create
          (sortedQueue today tasks) tasks (sortedQueue_nodup_fst today tasks)
          hraised q hq_mem
        rcases hcase with ⟨hskip, heq⟩ | ⟨s, e, eid, _hbook, heq⟩
        · rw [hq_fst] at heq hq_get
          rw [heq] at hget2
          have h := hget2.symm.trans hq_get
          injection h with h
          rw [h]
          exact ⟨hqdue, hskip⟩
        · rw [hq_fst] at heq hq_get
          rw [heq] at hget2
          have hlen : p.1 < tasks.length := (List.get?_eq_some.mp hq_get).choose
          rw [List.get?_set_eq_of_lt _ hlen] at hget2
          injection hget2 with hget2
          rw [← hget2] at hpend
          exact absurd hpend (by simp [bookedTask])
      · have hstable :
            (passLoop today busyFor create (sortedQueue today tasks)
              tasks).tasks.get? p.1 = tasks.get? p.1 :=
          passLoop_stable today busyFor create (sortedQueue today tasks)
            tasks p.1
            (fun q hqm hc => hq (hc ▸ List.mem_map_of_mem Prod.fst hqm))
        rw [hstable] at hget2
        exact absurd
          (List.mem_map_of_mem Prod.fst
            ((sortedQueue_mem_iff today tasks p.1 p.2).mpr ⟨hget2, hpend⟩))
          hq
    have hmixed2 : mixedDue (pendingIdx
        (passLoop today busyFor create (sortedQueue today tasks) tasks).tasks)
        = false :=
      mixedDue_eq_false (fun p hp => (hA p hp).1)
    have hq2 : ∀ p ∈ sortedQueue today
        (passLoop today busyFor create (sortedQueue today tasks) tasks).tasks,
        p.2.due = none ∧ attemptTask today busyFor create p.2 = .ok none :=
      fun p hp => hA p ((sortedQueue_perm today _).mem_iff.mp hp)
    have hr2 : planAllPending today busyFor create
        (passLoop today busyFor create (sortedQueue today tasks) tasks).tasks =
        ⟨(passLoop today busyFor create (sortedQueue today tasks) tasks).tasks,
         [],
         (sortedQueue today
           (passLoop today busyFor create (sortedQueue today tasks)
             tasks).tasks).map Prod.fst,
         false⟩ := by
      unfold planAllPending
      rw [if_neg (by simp [hmixed2])]
      exact passLoop_all_skip today busyFor create _ _ hq2
    rw [hr2]
    exact ⟨rfl, hget⟩

/-- C7 witness: the single-task booking scenario run twice — the second
pass books nothing and keeps the booked row (with its
`calendar_event_id = 7`) intact. -/
theorem planAllPending_idempotent_witness :
    (planAllPending 0 (fun _ => []) (fun _ _ => Except.ok 7)
      [pendingNoDueTask]).raised = false ∧
    (planAllPending 0 (fun _ => []) (fun _ _ => Except.ok 7)
        [pendingNoDueTask]).tasks.get? 0 =
      some { pendingNoDueTask with
             status := "planned", planned_at := some 540,
             calendar_event_id := some 7 } ∧
    (planAllPending 0 (fun _ => []) (fun _ _ => Except.ok 7)
        (planAllPending 0 (fun _ => []) (fun _ _ => Except.ok 7)
          [pendingNoDueTask]).tasks).bookings = [] ∧
    (planAllPending 0 (fun _ => []) (fun _ _ => Except.ok 7)
        (planAllPending 0 (fun _ => []) (fun _ _ => Except.ok 7)
          [pendingNoDueTask]).tasks).tasks.get? 0 =
      some { pendingNoDueTask with
             status := "planned", planned_at := some 540,
             calendar_event_id := some 7 } :=
  have h := planAllPending_idempotent 0 (fun _ => []) (fun _ _ => Except.ok 7)
    [pendingNoDueTask] 0
    { pendingNoDueTask with
      status := "planned", planned_at := some 540,
      calendar_event_id := some 7 } rfl rfl
  ⟨rfl, rfl, h.1, h.2⟩

end FlowPilot
